import Mathlib

/-!
Verification development for the Spark Interactive Story Engine
(`Story_Engine.py` and `api.py`).

Strings are modelled as `List Char` (Python `str` is a sequence of
characters).  The three regular expressions used by
`StoryEngine.parse_ai_response` all have the shape
`\[KEYWORD:(.*?)\]` — a literal bracketed keyword matched with
`re.IGNORECASE`, then a lazy body ending at the first `]`; with
`re.DOTALL` the body may contain newlines, without it it may not.
They are embedded as explicit left-to-right scanners below.
Case-insensitivity is modelled at ASCII granularity (the patterns
contain only ASCII uppercase letters and punctuation).
-/

/-- Python's `\s` / `str.strip` whitespace, ASCII part:
space, tab, newline, carriage return, vertical tab, form feed. -/
def isPySpace (c : Char) : Bool :=
  c == ' ' || c == '\t' || c == '\n' || c == '\r' || c == '\x0b' || c == '\x0c'

/-- Model of `re.IGNORECASE` matching of one pattern character `p` against a text
character `c`, for patterns made of ASCII uppercase letters and
punctuation: either the characters are equal, or `p` is an ASCII capital
and `c` is its lowercase form. -/
def ciEqc (p c : Char) : Bool :=
  p == c || (decide ('A' ≤ p) && decide (p ≤ 'Z') && c.toNat == p.toNat + 32)

/-- Python `str.strip()`: drop leading and trailing whitespace. -/
def stripChars (s : List Char) : List Char :=
  ((s.dropWhile isPySpace).reverse.dropWhile isPySpace).reverse

/-- Match a literal pattern case-insensitively at the start of the text,
returning the remaining text on success. -/
def matchLitCI : List Char → List Char → Option (List Char)
  | [], s => some s
  | _ :: _, [] => none
  | p :: ps, c :: cs => if ciEqc p c then matchLitCI ps cs else none

/-- The lazy body `(.*?)\]`: split the text at the first `]`, returning
the body and the text after the `]`.  Without `DOTALL` (`dotall = false`)
the body may not contain a newline; with it, it may. -/
def splitAtClose (dotall : Bool) : List Char → Option (List Char × List Char)
  | [] => none
  | c :: cs =>
    if c = ']' then some ([], cs)
    else if dotall = false ∧ c = '\n' then none
    else
      match splitAtClose dotall cs with
      | some (body, rest) => some (c :: body, rest)
      | none => none

/-- Try to match the whole tag pattern `\[KEYWORD:(.*?)\]` at the start of
the text: the literal opener `pre` (e.g. `[TITLE:`) case-insensitively,
then the lazy body up to the first `]`.  Returns the captured body and
the text after the match. -/
def matchTagAt (pre : List Char) (dotall : Bool) (s : List Char) :
    Option (List Char × List Char) :=
  match matchLitCI pre s with
  | none => none
  | some s1 => splitAtClose dotall s1

/-- Model of `re.search` for a tag pattern: scan left to right, return the captured
body of the leftmost match. -/
def searchTag (pre : List Char) (dotall : Bool) : List Char → Option (List Char)
  | [] => none
  | c :: cs =>
    match matchTagAt pre dotall (c :: cs) with
    | some (body, _) => some body
    | none => searchTag pre dotall cs

/-- Worker for `re.findall`, with explicit fuel (the scan consumes at least one
character per step, so fuel `s.length` is always enough). -/
def findTagsF (pre : List Char) (dotall : Bool) : Nat → List Char → List (List Char)
  | 0, _ => []
  | _ + 1, [] => []
  | fuel + 1, c :: cs =>
    match matchTagAt pre dotall (c :: cs) with
    | some (body, rest) => body :: findTagsF pre dotall fuel rest
    | none => findTagsF pre dotall fuel cs

/-- Model of `re.findall` for a tag pattern: the captured bodies of all
(leftmost, non-overlapping) matches, in order of appearance. -/
def findTags (pre : List Char) (dotall : Bool) (s : List Char) : List (List Char) :=
  findTagsF pre dotall s.length s

/-- Worker for `re.sub`, with explicit fuel.  On a match the body is passed to
`repl` (`fun _ => []` for deletion, `id` for the `\1` back-reference) and,
when `eatWs` is set (the `\s*` of the title pattern), the whitespace
following the match is consumed as part of the match. -/
def subTagF (pre : List Char) (dotall eatWs : Bool) (repl : List Char → List Char) :
    Nat → List Char → List Char
  | 0, s => s
  | _ + 1, [] => []
  | fuel + 1, c :: cs =>
    match matchTagAt pre dotall (c :: cs) with
    | some (body, rest) =>
        repl body ++ subTagF pre dotall eatWs repl fuel
          (if eatWs then rest.dropWhile isPySpace else rest)
    | none => c :: subTagF pre dotall eatWs repl fuel cs

/-- Model of `re.sub` for a tag pattern. -/
def subTag (pre : List Char) (dotall eatWs : Bool) (repl : List Char → List Char)
    (s : List Char) : List Char :=
  subTagF pre dotall eatWs repl s.length s

/-- The literal opener of `\[TITLE:(.*?)\]`. -/
def titleTagP : List Char := ['[', 'T', 'I', 'T', 'L', 'E', ':']

/-- The literal opener of `\[KEY ITEM:(.*?)\]`. -/
def keyItemTagP : List Char := ['[', 'K', 'E', 'Y', ' ', 'I', 'T', 'E', 'M', ':']

/-- The literal opener of `\[WISDOM GEM:(.*?)\]`. -/
def wisdomTagP : List Char := ['[', 'W', 'I', 'S', 'D', 'O', 'M', ' ', 'G', 'E', 'M', ':']

/-- The `StoryOutput` dataclass.  The `analysis` dict is an association list;
`parse_ai_response` leaves it empty. -/
structure StoryOutput where
  title : List Char := []
  text : List Char := []
  key_items : List (List Char) := []
  wisdom_gem : List Char := []
  analysis : List (List Char × List Char) := []
deriving Repr, DecidableEq

/-- Model of `StoryEngine.parse_ai_response`:
* title: first `\[TITLE:(.*?)\]` match (`re.I | re.DOTALL`), stripped;
  fallback `"Untitled Adventure"`;
* key_items: all `\[KEY ITEM:(.*?)\]` matches (`re.I`, no `DOTALL`), each stripped;
* wisdom_gem: first `\[WISDOM GEM:(.*?)\]` match (`re.I | re.DOTALL`), stripped;
  fallback `""`;
* text: `re.sub(r'\[TITLE:.*?\]\s*', '', ·)`, then
  `re.sub(r'\[KEY ITEM:(.*?)\]', r'\1', ·)`, then
  `re.sub(r'\[WISDOM GEM:.*?\]', '', ·)`, then `.strip()`. -/
def parse_ai_response (ai_text : List Char) : StoryOutput :=
  let title :=
    match searchTag titleTagP true ai_text with
    | some t => stripChars t
    | none => "Untitled Adventure".toList
  let key_items := (findTags keyItemTagP false ai_text).map stripChars
  let wisdom_gem :=
    match searchTag wisdomTagP true ai_text with
    | some w => stripChars w
    | none => []
  let t1 := subTag titleTagP true true (fun _ => []) ai_text
  let t2 := subTag keyItemTagP false false (fun b => b) t1
  let t3 := subTag wisdomTagP true false (fun _ => []) t2
  { title := title, text := stripChars t3, key_items := key_items,
    wisdom_gem := wisdom_gem, analysis := [] }

/-- The `Character` dataclass (fields exactly as declared in `Story_Engine.py`). -/
structure Character where
  name : List Char
  age : Int
  personality : List Char
  favorites : List Char
  special_trait : Option (List Char) := none
deriving Repr, DecidableEq

/-- Model of `Character.__post_init__` validation: dataclass construction either
raises `ValueError` (modelled as `Except.error` with the message) or
yields the character.  The name check is `if not self.name.strip()`,
the age check `if self.age < 1 or self.age > 18`. -/
def mkCharacter (name : List Char) (age : Int) (personality favorites : List Char)
    (special_trait : Option (List Char)) : Except (List Char) Character :=
  if stripChars name = [] then .error "Character name cannot be empty".toList
  else if age < 1 ∨ 18 < age then .error "Character age must be between 1 and 18".toList
  else .ok ⟨name, age, personality, favorites, special_trait⟩

/-- Model of `Character.get_description`.  The `if self.special_trait:` test is
false for `None` and for the empty string. -/
def Character.get_description (c : Character) : List Char :=
  let base := "- ".toList ++ c.name ++ ", age ".toList ++ (toString c.age).toList
    ++ ", who is ".toList ++ c.personality ++ " and loves ".toList ++ c.favorites
  match c.special_trait with
  | some t => if t = [] then base else base ++ ". Special: ".toList ++ t
  | none => base

/-- The `StoryGenre` enum. -/
inductive StoryGenre where
  | FANTASY | SPACE | UNDERWATER | SUPERHERO | ANIMALS | TIME_TRAVEL
deriving Repr, DecidableEq

def StoryGenre.value : StoryGenre → List Char
  | .FANTASY => "Fantasy Adventure".toList
  | .SPACE => "Space Explorer".toList
  | .UNDERWATER => "Underwater Quest".toList
  | .SUPERHERO => "Superhero Journey".toList
  | .ANIMALS => "Animal Friends".toList
  | .TIME_TRAVEL => "Time Travel".toList

/-- The `StoryTone` enum. -/
inductive StoryTone where
  | EXCITING | GENTLE | FUNNY | MYSTERIOUS
deriving Repr, DecidableEq

def StoryTone.value : StoryTone → List Char
  | .EXCITING => "exciting and adventurous".toList
  | .GENTLE => "gentle and heartwarming".toList
  | .FUNNY => "funny and silly".toList
  | .MYSTERIOUS => "mysterious and magical".toList

/-- The `StoryLength` enum. -/
inductive StoryLength where
  | SHORT | MEDIUM | LONG
deriving Repr, DecidableEq

def StoryLength.value : StoryLength → List Char
  | .SHORT => "Short (~400 words)".toList
  | .MEDIUM => "Medium (~700 words)".toList
  | .LONG => "Long (~1000 words)".toList

/-- The `MagicalCompanion` dataclass. -/
structure MagicalCompanion where
  name : List Char
  emoji : List Char
  species : List Char
  appearance : List Char
  personality : List Char
  quirk : List Char
  special_ability : List Char
deriving Repr, DecidableEq

/-- The `StoryProfile` dataclass with its defaults (`genre`, `tone`, `length`
and `magical_companion` default to `None`). -/
structure StoryProfile where
  characters : List Character := []
  genre : Option StoryGenre := none
  tone : Option StoryTone := none
  length : Option StoryLength := none
  challenge : List Char := []
  magic : List Char := []
  hook_style : List Char := "action".toList
  magical_companion : Option MagicalCompanion := none
  twist : List Char := []
deriving Repr, DecidableEq

/-- The f-string body of `build_story_prompt` (an indented triple-quoted
string; `\n        ` reproduces its line breaks and indentation). -/
def promptBody (tone : StoryTone) (genre : StoryGenre) (len : StoryLength)
    (char_descriptions companion_text twist_text challenge magic hook_style : List Char) :
    List Char :=
  "\n        You are a world-class children's author. Write a complete, ".toList
  ++ tone.value ++ " ".toList ++ genre.value ++ " story of ".toList ++ len.value
  ++ ".\n\n        STORY ELEMENTS:\n        - Characters:\n        ".toList
  ++ char_descriptions ++ "\n        ".toList ++ companion_text
  ++ "\n        - Theme: Explore '".toList ++ challenge
  ++ "'.\n        - Magic System: '".toList ++ magic
  ++ "'.\n        - Opening Hook: Start with ".toList
  ++ (if hook_style = "action".toList then "action".toList else "vivid description".toList)
  ++ ".\n        ".toList ++ twist_text
  ++ "\n\n        CRITICAL INSTRUCTIONS:\n        1. Start with [TITLE: Creative Title Here].\n        2. Include rich sensory details and show emotions through actions.\n        3. Describe problem-solving step-by-step in the climax.\n        4. Include 2-3 [KEY ITEM: Item Name] tags.\n        5. End with [WISDOM GEM: One powerful lesson sentence.].\n        ".toList

/-- Model of `StoryEngine.build_story_prompt`.  The f-string reads
`profile.tone.value`, `profile.genre.value` and `profile.length.value`;
when any of the three is `None` Python raises `AttributeError`
(modelled as `none`).  A missing companion gives an empty
`companion_text`, an empty `twist` an empty `twist_text`. -/
def build_story_prompt (p : StoryProfile) : Option (List Char) :=
  let char_descriptions :=
    List.intercalate "\n".toList (p.characters.map Character.get_description)
  let companion_text :=
    match p.magical_companion with
    | some comp =>
        "\nMAGICAL COMPANION:\n- ".toList ++ comp.name ++ " (".toList
          ++ comp.personality ++ "), special ability: ".toList
          ++ comp.special_ability ++ ".".toList
    | none => []
  let twist_text :=
    if p.twist = [] then [] else "\n- Surprise twist: ".toList ++ p.twist
  match p.tone, p.genre, p.length with
  | some tone, some genre, some len =>
      some (promptBody tone genre len char_descriptions companion_text twist_text
        p.challenge p.magic p.hook_style)
  | _, _, _ => none

/-- Model of `StoryEngine.generate_story`.  The external model call
`self.model.generate_content(prompt)` is a parameter `genContent`; any
exception inside the `try` block (an `AttributeError` from
`build_story_prompt` or a generation error) is caught, logged and
printed, and the method returns `None` — the exception itself is not
returned to the caller.  (`analyze_story` swallows its own exceptions
and only fills `analysis`; it is modelled as leaving `analysis` empty.) -/
def generate_story (genContent : List Char → Except (List Char) (List Char))
    (p : StoryProfile) : Option StoryOutput :=
  match build_story_prompt p with
  | none => none
  | some prompt =>
    match genContent prompt with
    | .error _ => none
    | .ok txt => some (parse_ai_response txt)

/-- Python `characters[-20:]`: the last `n` elements. -/
def takeLast (n : Nat) (l : List α) : List α := l.drop (l.length - n)

/-- Model of `FileManager.save_characters`: the list of records written to
`characters.json` — the 20 most recent characters. -/
def save_characters (characters : List Character) : List Character :=
  takeLast 20 characters

/-- Model of `StoryEngine.save_story_and_characters`, character-store part.
Input: the in-memory `self.saved_characters` and `profile.characters`.
Output: the new in-memory store, and `some` persisted list when
`save_characters` was called (it is only called when there are new
characters). -/
def save_story_and_characters (saved : List Character) (profileChars : List Character) :
    List Character × Option (List Character) :=
  let existing_names := saved.map Character.name
  let new_characters :=
    profileChars.filter (fun c => !decide (c.name ∈ existing_names))
  if new_characters.isEmpty then (saved, none)
  else
    let updated := saved ++ new_characters
    (updated, some (save_characters updated))

/-- Number of store entries carrying a given name. -/
def countName (n : List Char) (l : List Character) : Nat :=
  l.countP (fun c => decide (c.name = n))

/-- The `StoryRequest` pydantic model from `api.py`, with its defaults. -/
structure StoryRequest where
  character_name : List Char
  character_age : Int
  character_gender : List Char
  character_personality : List Char := "curious and kind".toList
  character_loves : List Char := "exploring new places".toList
  challenge : List Char := "learning to be brave".toList
  genre : StoryGenre := .FANTASY
  tone : StoryTone := .GENTLE
  length : StoryLength := .SHORT
deriving Repr, DecidableEq

/-- Responses of the `/generate_story` route: a JSON object with the four
story keys, or an `HTTPException` with a status code and detail string. -/
inductive ApiResponse where
  | ok (title text wisdom_gem : List Char) (key_items : List (List Char))
  | httpError (status : Nat) (detail : List Char)
deriving Repr, DecidableEq

/-- The route body calls
`Character(name=..., age=..., gender=..., personality=..., favorites=...)`,
but the `Character` dataclass in `Story_Engine.py` declares no `gender`
field, so Python raises
`TypeError: __init__() got an unexpected keyword argument 'gender'`
before any validation runs.  Modelled as an error. -/
def characterCallWithGender (_name : List Char) (_age : Int) (_gender : List Char)
    (_personality _favorites : List Char) : Except (List Char) Character :=
  .error "__init__() got an unexpected keyword argument 'gender'".toList

/-- The `/generate_story` route of `api.py`.  Everything runs inside a
`try` whose `except Exception as e` re-raises
`HTTPException(500, f"An unexpected error occurred: {str(e)}")`; note
that the inner `HTTPException(500, "Story generation failed.")` is itself
an `Exception` and is re-wrapped by that handler. -/
def api_generate_story (genContent : List Char → Except (List Char) (List Char))
    (req : StoryRequest) : ApiResponse :=
  match characterCallWithGender req.character_name req.character_age
      req.character_gender req.character_personality req.character_loves with
  | .error e => .httpError 500 ("An unexpected error occurred: ".toList ++ e)
  | .ok main_character =>
    let profile : StoryProfile :=
      { characters := [main_character], genre := some req.genre,
        tone := some req.tone, length := some req.length,
        challenge := req.challenge, magic := "friendship and courage".toList }
    match generate_story genContent profile with
    | none =>
        .httpError 500
          ("An unexpected error occurred: 500: Story generation failed.".toList)
    | some story =>
        if story.text = [] then
          .httpError 500
            ("An unexpected error occurred: 500: Story generation failed.".toList)
        else .ok story.title story.text story.wisdom_gem story.key_items

/-! ### Structured inputs

For inputs whose bracket structure is well formed — plain filler text
without `[`, interleaved with complete tags whose bodies contain neither
`[` nor `]` (and no newline inside a key-item tag) — the cleaning
pipeline of `parse_ai_response` can be described segmentwise.  `Seg` is a
segment of such an input, the spec-side description of the claims. -/

inductive Seg where
  | fillS (f : List Char)
  | titleS (body : List Char)
  | keyS (body : List Char)
  | wisdomS (body : List Char)
deriving Repr, DecidableEq

def renderSeg : Seg → List Char
  | .fillS f => f
  | .titleS b => titleTagP ++ b ++ [']']
  | .keyS b => keyItemTagP ++ b ++ [']']
  | .wisdomS b => wisdomTagP ++ b ++ [']']

def renderSegs : List Seg → List Char
  | [] => []
  | sg :: r => renderSeg sg ++ renderSegs r

def segOkB : Seg → Bool
  | .fillS f => decide ('[' ∉ f)
  | .titleS b => decide ('[' ∉ b) && decide (']' ∉ b)
  | .keyS b => decide ('[' ∉ b) && decide (']' ∉ b) && decide ('\n' ∉ b)
  | .wisdomS b => decide ('[' ∉ b) && decide (']' ∉ b)

def wfSegs (l : List Seg) : Bool := l.all segOkB

/-- Spec-side description of the title pass: each `[TITLE: ...]` tag is
deleted together with the whitespace that follows it (the `\s*` of the
pattern); the flag records whether whitespace is still being eaten. -/
def titlePassF : Bool → List Seg → List Seg
  | false, .fillS f :: r => .fillS f :: titlePassF false r
  | true, .fillS f :: r =>
      let f' := f.dropWhile isPySpace
      if f' = [] then titlePassF true r else .fillS f' :: titlePassF false r
  | _, .titleS _ :: r => titlePassF true r
  | _, .keyS b :: r => .keyS b :: titlePassF false r
  | _, .wisdomS b :: r => .wisdomS b :: titlePassF false r
  | _, [] => []

/-- Spec-side description of the key-item pass: each `[KEY ITEM: ...]`
tag is replaced by its body, which becomes plain filler text. -/
def keyPassF : List Seg → List Seg
  | [] => []
  | .fillS f :: r => .fillS f :: keyPassF r
  | .titleS b :: r => .titleS b :: keyPassF r
  | .keyS b :: r => .fillS b :: keyPassF r
  | .wisdomS b :: r => .wisdomS b :: keyPassF r

/-- Spec-side description of the wisdom pass: each `[WISDOM GEM: ...]`
tag is deleted. -/
def wisdomPassF : List Seg → List Seg
  | [] => []
  | .fillS f :: r => .fillS f :: wisdomPassF r
  | .titleS b :: r => .titleS b :: wisdomPassF r
  | .keyS b :: r => .keyS b :: wisdomPassF r
  | .wisdomS _ :: r => wisdomPassF r

/-- The bodies of the `[KEY ITEM: ...]` tags, in order of appearance. -/
def keyBodies : List Seg → List (List Char)
  | [] => []
  | .keyS b :: r => b :: keyBodies r
  | _ :: r => keyBodies r

def applyEat (e : Bool) (s : List Char) : List Char :=
  if e then s.dropWhile isPySpace else s

/-- Claim-side reading of C1's cleaning step, as the claim states it:
every `[TITLE: ...]` tag and every `[WISDOM GEM: ...]` tag removed
entirely (and nothing else), each `[KEY ITEM: ...]` tag replaced by its
inner item name — no whitespace eating after the title tag, no final
trimming. -/
def claimCleanC1 (s : List Char) : List Char :=
  subTag wisdomTagP true false (fun _ => [])
    (subTag keyItemTagP false false (fun b => b)
      (subTag titleTagP true false (fun _ => []) s))

/-! ### Basic facts about the scanners -/

theorem matchLitCI_length {pre s r : List Char} (h : matchLitCI pre s = some r) :
    r.length ≤ s.length := by
  induction pre generalizing s with
  | nil => simp [matchLitCI] at h; simp [h]
  | cons p ps ih =>
    cases s with
    | nil => simp [matchLitCI] at h
    | cons c cs =>
      by_cases hc : ciEqc p c = true
      · simp [matchLitCI, hc] at h
        exact Nat.le_succ_of_le (ih h)
      · simp [matchLitCI, hc] at h

theorem splitAtClose_length {d : Bool} {s body rest : List Char}
    (h : splitAtClose d s = some (body, rest)) : rest.length < s.length := by
  induction s generalizing body with
  | nil => simp [splitAtClose] at h
  | cons c cs ih =>
    by_cases hc : c = ']'
    · simp [splitAtClose, hc] at h
      simp [h.2, List.length_cons, Nat.lt_succ_self]
    · by_cases hn : d = false ∧ c = '\n'
      · simp [splitAtClose, hc, hn] at h
      · simp only [splitAtClose, if_neg hc, if_neg hn] at h
        cases hsp : splitAtClose d cs with
        | none => rw [hsp] at h; simp at h
        | some pr =>
          obtain ⟨b2, r2⟩ := pr
          rw [hsp] at h
          simp only [Option.some.injEq, Prod.mk.injEq] at h
          obtain ⟨_, h2⟩ := h
          subst h2
          exact Nat.lt_succ_of_lt (ih hsp)

theorem matchTagAt_length {pre : List Char} {d : Bool} {s body rest : List Char}
    (h : matchTagAt pre d s = some (body, rest)) : rest.length < s.length := by
  unfold matchTagAt at h
  cases hm : matchLitCI pre s with
  | none => rw [hm] at h; simp at h
  | some s1 =>
    rw [hm] at h
    exact Nat.lt_of_lt_of_le (splitAtClose_length h) (matchLitCI_length hm)

theorem subTagF_fuelInv (pre : List Char) (d e : Bool) (repl : List Char → List Char) :
    ∀ f1 : Nat, ∀ (s : List Char) (f2 : Nat), s.length ≤ f1 → s.length ≤ f2 →
      subTagF pre d e repl f1 s = subTagF pre d e repl f2 s := by
  intro f1
  induction f1 with
  | zero =>
    intro s f2 h1 _
    have : s = [] := List.eq_nil_of_length_eq_zero (Nat.le_zero.mp h1)
    subst this
    cases f2 <;> rfl
  | succ f ih =>
    intro s f2 h1 h2
    cases s with
    | nil => cases f2 <;> rfl
    | cons c cs =>
      cases f2 with
      | zero => simp at h2
      | succ g =>
        cases hm : matchTagAt pre d (c :: cs) with
        | none =>
          have hl : cs.length ≤ f := Nat.lt_succ_iff.mp h1
          have hl' : cs.length ≤ g := Nat.lt_succ_iff.mp h2
          simp only [subTagF, hm]
          rw [ih cs g hl hl']
        | some pr =>
          obtain ⟨body, rest⟩ := pr
          have hr : rest.length ≤ cs.length := Nat.lt_succ_iff.mp (matchTagAt_length hm)
          have he : (if e then rest.dropWhile isPySpace else rest).length ≤ rest.length := by
            cases e
            · simp
            · simpa using ((List.dropWhile_suffix isPySpace).sublist).length_le
          simp only [subTagF, hm]
          rw [ih _ g (le_trans he (le_trans hr (Nat.lt_succ_iff.mp h1)))
            (le_trans he (le_trans hr (Nat.lt_succ_iff.mp h2)))]

theorem subTag_nil (pre : List Char) (d e : Bool) (repl : List Char → List Char) :
    subTag pre d e repl [] = [] := rfl

theorem subTag_cons_none {pre : List Char} {d e : Bool} {repl : List Char → List Char}
    {c : Char} {cs : List Char} (h : matchTagAt pre d (c :: cs) = none) :
    subTag pre d e repl (c :: cs) = c :: subTag pre d e repl cs := by
  show subTagF pre d e repl (cs.length + 1) (c :: cs) = _
  simp only [subTagF, h]
  rfl

theorem subTag_match {pre : List Char} {d e : Bool} {repl : List Char → List Char}
    {s body rest : List Char} (h : matchTagAt pre d s = some (body, rest)) (hs : s ≠ []) :
    subTag pre d e repl s
      = repl body ++ subTag pre d e repl (if e then rest.dropWhile isPySpace else rest) := by
  cases s with
  | nil => exact absurd rfl hs
  | cons c cs =>
    have hr : rest.length ≤ cs.length := Nat.lt_succ_iff.mp (matchTagAt_length h)
    have he : (if e then rest.dropWhile isPySpace else rest).length ≤ rest.length := by
      cases e
      · simp
      · simpa using ((List.dropWhile_suffix isPySpace).sublist).length_le
    show subTagF pre d e repl (cs.length + 1) (c :: cs) = _
    simp only [subTagF, h]
    congr 1
    exact subTagF_fuelInv pre d e repl cs.length _ _ (le_trans he hr) le_rfl

theorem findTagsF_fuelInv (pre : List Char) (d : Bool) :
    ∀ f1 : Nat, ∀ (s : List Char) (f2 : Nat), s.length ≤ f1 → s.length ≤ f2 →
      findTagsF pre d f1 s = findTagsF pre d f2 s := by
  intro f1
  induction f1 with
  | zero =>
    intro s f2 h1 _
    have : s = [] := List.eq_nil_of_length_eq_zero (Nat.le_zero.mp h1)
    subst this
    cases f2 <;> rfl
  | succ f ih =>
    intro s f2 h1 h2
    cases s with
    | nil => cases f2 <;> rfl
    | cons c cs =>
      cases f2 with
      | zero => simp at h2
      | succ g =>
        cases hm : matchTagAt pre d (c :: cs) with
        | none =>
          simp only [findTagsF, hm]
          rw [ih cs g (Nat.lt_succ_iff.mp h1) (Nat.lt_succ_iff.mp h2)]
        | some pr =>
          obtain ⟨body, rest⟩ := pr
          have hr : rest.length ≤ cs.length := Nat.lt_succ_iff.mp (matchTagAt_length hm)
          simp only [findTagsF, hm]
          rw [ih rest g (le_trans hr (Nat.lt_succ_iff.mp h1))
            (le_trans hr (Nat.lt_succ_iff.mp h2))]

theorem findTags_nil (pre : List Char) (d : Bool) : findTags pre d [] = [] := rfl

theorem findTags_cons_none {pre : List Char} {d : Bool} {c : Char} {cs : List Char}
    (h : matchTagAt pre d (c :: cs) = none) :
    findTags pre d (c :: cs) = findTags pre d cs := by
  show findTagsF pre d (cs.length + 1) (c :: cs) = _
  simp only [findTagsF, h]
  rfl

theorem findTags_match {pre : List Char} {d : Bool} {s body rest : List Char}
    (h : matchTagAt pre d s = some (body, rest)) (hs : s ≠ []) :
    findTags pre d s = body :: findTags pre d rest := by
  cases s with
  | nil => exact absurd rfl hs
  | cons c cs =>
    have hr : rest.length ≤ cs.length := Nat.lt_succ_iff.mp (matchTagAt_length h)
    show findTagsF pre d (cs.length + 1) (c :: cs) = _
    simp only [findTagsF, h]
    congr 1
    exact findTagsF_fuelInv pre d cs.length _ _ hr le_rfl

/-! ### Mismatch, gap and exact-match lemmas -/

theorem ciEqc_refl (p : Char) : ciEqc p p = true := by simp [ciEqc]

theorem ciEqc_lb {c : Char} (h : c ≠ '[') : ciEqc '[' c = false := by
  have h1 : ('[' == c) = false := beq_eq_false_iff_ne.mpr (Ne.symm h)
  have h2 : decide ('[' ≤ 'Z') = false := by decide
  simp [ciEqc, h1, h2]

theorem matchTagAt_ne_lb {ps : List Char} {d : Bool} {c : Char} (cs : List Char)
    (h : c ≠ '[') : matchTagAt ('[' :: ps) d (c :: cs) = none := by
  simp [matchTagAt, matchLitCI, ciEqc_lb h]

theorem matchTagAt_second {p2 c2 : Char} {ps : List Char} {d : Bool} (cs : List Char)
    (h : ciEqc p2 c2 = false) :
    matchTagAt ('[' :: p2 :: ps) d ('[' :: c2 :: cs) = none := by
  simp [matchTagAt, matchLitCI, ciEqc_refl, h]

theorem subTag_gap (pre ps : List Char) (hpre : pre = '[' :: ps) (d e : Bool)
    (repl : List Char → List Char) {g : List Char} (r : List Char)
    (hg : ∀ c ∈ g, c ≠ '[') :
    subTag pre d e repl (g ++ r) = g ++ subTag pre d e repl r := by
  subst hpre
  induction g with
  | nil => simp
  | cons c g ih =>
    rw [List.cons_append,
      subTag_cons_none (matchTagAt_ne_lb _ (hg c (by simp))),
      ih (fun x hx => hg x (by simp [hx]))]
    rfl

theorem findTags_gap (pre ps : List Char) (hpre : pre = '[' :: ps) (d : Bool)
    {g : List Char} (r : List Char) (hg : ∀ c ∈ g, c ≠ '[') :
    findTags pre d (g ++ r) = findTags pre d r := by
  subst hpre
  induction g with
  | nil => simp
  | cons c g ih =>
    rw [List.cons_append,
      findTags_cons_none (matchTagAt_ne_lb _ (hg c (by simp))),
      ih (fun x hx => hg x (by simp [hx]))]

theorem searchTag_cons_none {pre : List Char} {d : Bool} {c : Char} {cs : List Char}
    (h : matchTagAt pre d (c :: cs) = none) :
    searchTag pre d (c :: cs) = searchTag pre d cs := by
  simp only [searchTag, h]

theorem searchTag_none (pre : List Char) (d : Bool) (s : List Char)
    (h : ∀ i < s.length, matchTagAt pre d (s.drop i) = none) :
    searchTag pre d s = none := by
  induction s with
  | nil => rfl
  | cons c cs ih =>
    rw [searchTag_cons_none (by simpa using h 0 (by simp))]
    exact ih (fun i hi => by simpa using h (i + 1) (by simpa using hi))

theorem searchTag_found (pre ps : List Char) (hpre : pre = '[' :: ps) (d : Bool)
    (s : List Char) (i : Nat) (body rest : List Char)
    (h : matchTagAt pre d (s.drop i) = some (body, rest))
    (hmin : ∀ j < i, matchTagAt pre d (s.drop j) = none) :
    searchTag pre d s = some body := by
  subst hpre
  induction s generalizing i with
  | nil => simp [List.drop_nil, matchTagAt, matchLitCI] at h
  | cons c cs ih =>
    cases i with
    | zero =>
      simp only [List.drop_zero] at h
      simp only [searchTag, h]
    | succ k =>
      rw [searchTag_cons_none (by simpa using hmin 0 (Nat.succ_pos k))]
      exact ih k (by simpa using h)
        (fun j hj => by simpa using hmin (j + 1) (Nat.succ_lt_succ hj))

theorem subTag_noMatch (pre : List Char) (d e : Bool) (repl : List Char → List Char)
    (s : List Char) (h : ∀ i < s.length, matchTagAt pre d (s.drop i) = none) :
    subTag pre d e repl s = s := by
  induction s with
  | nil => rfl
  | cons c cs ih =>
    rw [subTag_cons_none (by simpa using h 0 (by simp))]
    rw [ih (fun i hi => by simpa using h (i + 1) (by simpa using hi))]

theorem findTags_noMatch (pre : List Char) (d : Bool) (s : List Char)
    (h : ∀ i < s.length, matchTagAt pre d (s.drop i) = none) :
    findTags pre d s = [] := by
  induction s with
  | nil => rfl
  | cons c cs ih =>
    rw [findTags_cons_none (by simpa using h 0 (by simp))]
    exact ih (fun i hi => by simpa using h (i + 1) (by simpa using hi))

theorem matchLitCI_self (pre s : List Char) : matchLitCI pre (pre ++ s) = some s := by
  induction pre with
  | nil => rfl
  | cons p ps ih => simp [matchLitCI, ciEqc_refl, ih]

theorem splitAtClose_exact {d : Bool} {body : List Char} (rest : List Char)
    (hnb : ']' ∉ body) (hnl : d = true ∨ '\n' ∉ body) :
    splitAtClose d (body ++ ']' :: rest) = some (body, rest) := by
  induction body with
  | nil => simp [splitAtClose]
  | cons c cs ih =>
    have hc : ¬(c = ']') := fun h => hnb (by simp [h])
    have hcn : ¬(d = false ∧ c = '\n') := by
      rcases hnl with h | h
      · rintro ⟨hd, _⟩; rw [h] at hd; cases hd
      · rintro ⟨_, hcx⟩; exact h (by simp [hcx])
    have hnb' : ']' ∉ cs := fun hx => hnb (by simp [hx])
    have hnl' : d = true ∨ '\n' ∉ cs := by
      rcases hnl with h | h
      · exact Or.inl h
      · exact Or.inr (fun hx => h (by simp [hx]))
    simp only [List.cons_append, splitAtClose, if_neg hc, if_neg hcn]
    rw [show cs.append (']' :: rest) = cs ++ ']' :: rest from rfl, ih hnb' hnl']

theorem matchTagAt_self (pre : List Char) {d : Bool} {body : List Char} (rest : List Char)
    (hnb : ']' ∉ body) (hnl : d = true ∨ '\n' ∉ body) :
    matchTagAt pre d (pre ++ (body ++ ']' :: rest)) = some (body, rest) := by
  simp [matchTagAt, matchLitCI_self, splitAtClose_exact rest hnb hnl]

/-! Auxiliary facts used by the pass lemmas. -/

theorem wfSegs_cons {sg : Seg} {r : List Seg} (h : wfSegs (sg :: r) = true) :
    segOkB sg = true ∧ wfSegs r = true := by
  simpa [wfSegs] using h

theorem no_lb_chars {g : List Char} (h : '[' ∉ g) : ∀ c ∈ g, c ≠ '[' :=
  fun c hc he => h (he ▸ hc)

theorem gap_chars {tail b : List Char} (htail : ∀ c ∈ tail, c ≠ '[') (hb : '[' ∉ b) :
    ∀ c ∈ tail ++ (b ++ [']']), c ≠ '[' := by
  intro c hc
  rcases List.mem_append.mp hc with h | h
  · exact htail c h
  rcases List.mem_append.mp h with h | h
  · exact no_lb_chars hb c h
  · simp only [List.mem_singleton] at h
    subst h
    decide

theorem applyEat_lb (e : Bool) (cs : List Char) : applyEat e ('[' :: cs) = '[' :: cs := by
  cases e <;>
    simp [applyEat, List.dropWhile_cons, show isPySpace '[' = false from by decide]

/-- The rendering of a key-item tag followed by more text, in head-normal
shape. -/
theorem renderSegs_keyS (b : List Char) (r : List Seg) :
    renderSegs (Seg.keyS b :: r)
      = '[' :: (['K', 'E', 'Y', ' ', 'I', 'T', 'E', 'M', ':'] ++ (b ++ [']']) ++ renderSegs r) := by
  simp [renderSegs, renderSeg, keyItemTagP, List.append_assoc]

theorem renderSegs_wisdomS (b : List Char) (r : List Seg) :
    renderSegs (Seg.wisdomS b :: r)
      = '[' :: (['W', 'I', 'S', 'D', 'O', 'M', ' ', 'G', 'E', 'M', ':'] ++ (b ++ [']']) ++ renderSegs r) := by
  simp [renderSegs, renderSeg, wisdomTagP, List.append_assoc]

theorem renderSegs_titleS (b : List Char) (r : List Seg) :
    renderSegs (Seg.titleS b :: r)
      = '[' :: (['T', 'I', 'T', 'L', 'E', ':'] ++ (b ++ [']']) ++ renderSegs r) := by
  simp [renderSegs, renderSeg, titleTagP, List.append_assoc]

/-- A tag rendering is also `pre ++ (body ++ ']' :: rest)`, the shape
`matchTagAt_self` wants. -/
theorem renderSegs_titleS' (b : List Char) (r : List Seg) :
    renderSegs (Seg.titleS b :: r) = titleTagP ++ (b ++ ']' :: renderSegs r) := by
  simp [renderSegs, renderSeg, List.append_assoc]

theorem renderSegs_keyS' (b : List Char) (r : List Seg) :
    renderSegs (Seg.keyS b :: r) = keyItemTagP ++ (b ++ ']' :: renderSegs r) := by
  simp [renderSegs, renderSeg, List.append_assoc]

theorem renderSegs_wisdomS' (b : List Char) (r : List Seg) :
    renderSegs (Seg.wisdomS b :: r) = wisdomTagP ++ (b ++ ']' :: renderSegs r) := by
  simp [renderSegs, renderSeg, List.append_assoc]

/-- A title-tag scan fails at the opener of a key-item tag
(`T` vs `K` in the second character). -/
theorem mta_title_at_key (d : Bool) (y z : List Char) :
    matchTagAt titleTagP d ('[' :: (['K', 'E', 'Y', ' ', 'I', 'T', 'E', 'M', ':'] ++ y ++ z))
      = none :=
  matchTagAt_second _ (by decide)

theorem mta_title_at_wis (d : Bool) (y z : List Char) :
    matchTagAt titleTagP d
      ('[' :: (['W', 'I', 'S', 'D', 'O', 'M', ' ', 'G', 'E', 'M', ':'] ++ y ++ z)) = none :=
  matchTagAt_second _ (by decide)

theorem mta_key_at_title (d : Bool) (y z : List Char) :
    matchTagAt keyItemTagP d ('[' :: (['T', 'I', 'T', 'L', 'E', ':'] ++ y ++ z)) = none :=
  matchTagAt_second _ (by decide)

theorem mta_key_at_wis (d : Bool) (y z : List Char) :
    matchTagAt keyItemTagP d
      ('[' :: (['W', 'I', 'S', 'D', 'O', 'M', ' ', 'G', 'E', 'M', ':'] ++ y ++ z)) = none :=
  matchTagAt_second _ (by decide)

theorem mta_wis_at_title (d : Bool) (y z : List Char) :
    matchTagAt wisdomTagP d ('[' :: (['T', 'I', 'T', 'L', 'E', ':'] ++ y ++ z)) = none :=
  matchTagAt_second _ (by decide)

theorem mta_wis_at_key (d : Bool) (y z : List Char) :
    matchTagAt wisdomTagP d ('[' :: (['K', 'E', 'Y', ' ', 'I', 'T', 'E', 'M', ':'] ++ y ++ z))
      = none :=
  matchTagAt_second _ (by decide)

theorem titlePassF_nil (e : Bool) : titlePassF e [] = [] := by cases e <;> rfl

theorem titlePassF_titleS (e : Bool) (b : List Char) (r : List Seg) :
    titlePassF e (.titleS b :: r) = titlePassF true r := by cases e <;> rfl

theorem titlePassF_keyS (e : Bool) (b : List Char) (r : List Seg) :
    titlePassF e (.keyS b :: r) = .keyS b :: titlePassF false r := by cases e <;> rfl

theorem titlePassF_wisdomS (e : Bool) (b : List Char) (r : List Seg) :
    titlePassF e (.wisdomS b :: r) = .wisdomS b :: titlePassF false r := by cases e <;> rfl

/-- The title pass of the cleaning pipeline, segmentwise: on a
well-formed segment list, `re.sub(r'\[TITLE:.*?\]\s*', '', ·)` deletes
exactly the title tags together with the whitespace following them. -/
theorem title_pass : ∀ segs : List Seg, wfSegs segs = true → ∀ e : Bool,
    subTag titleTagP true true (fun _ => []) (applyEat e (renderSegs segs))
      = renderSegs (titlePassF e segs) := by
  intro segs
  induction segs with
  | nil =>
    intro _ e
    cases e <;> simp [renderSegs, titlePassF, applyEat, subTag_nil]
  | cons sg r ih =>
    intro hwf e
    obtain ⟨hsg, hwfr⟩ := wfSegs_cons hwf
    cases sg with
    | fillS f =>
      have hf : '[' ∉ f := by simpa [segOkB] using hsg
      have ihf := ih hwfr false
      simp only [applyEat, if_neg (Bool.false_ne_true)] at ihf
      cases e with
      | false =>
        have h1 : applyEat false (renderSegs (Seg.fillS f :: r)) = f ++ renderSegs r := by
          simp [applyEat, renderSegs, renderSeg]
        rw [h1, subTag_gap titleTagP _ rfl true true _ (renderSegs r) (no_lb_chars hf), ihf]
        simp [renderSegs, renderSeg, titlePassF]
      | true =>
        have h1 : applyEat true (renderSegs (Seg.fillS f :: r))
            = List.dropWhile isPySpace (f ++ renderSegs r) := by
          simp [applyEat, renderSegs, renderSeg]
        by_cases hf' : f.dropWhile isPySpace = []
        · have h2 : List.dropWhile isPySpace (f ++ renderSegs r)
              = applyEat true (renderSegs r) := by
            rw [List.dropWhile_append]
            simp [applyEat, hf']
          rw [h1, h2, ih hwfr true]
          simp [titlePassF, hf']
        · have h2 : List.dropWhile isPySpace (f ++ renderSegs r)
              = f.dropWhile isPySpace ++ renderSegs r := by
            rw [List.dropWhile_append]
            simp [hf']
          have hf2 : '[' ∉ f.dropWhile isPySpace :=
            fun hx => hf (((List.dropWhile_suffix isPySpace).sublist).mem hx)
          rw [h1, h2,
            subTag_gap titleTagP _ rfl true true _ (renderSegs r) (no_lb_chars hf2), ihf]
          simp [titlePassF, hf', renderSegs, renderSeg]
    | titleS b =>
      have hb : ']' ∉ b := by
        have := hsg
        simp only [segOkB, Bool.and_eq_true, decide_eq_true_eq] at this
        exact this.2
      have hx : applyEat e (renderSegs (Seg.titleS b :: r)) = renderSegs (Seg.titleS b :: r) := by
        rw [renderSegs_titleS]
        exact applyEat_lb e _
      rw [hx, renderSegs_titleS',
        subTag_match (matchTagAt_self titleTagP (renderSegs r) hb (Or.inl rfl))
          (by simp [titleTagP])]
      have ihr := ih hwfr true
      simp only [applyEat, if_pos rfl] at ihr
      simp only [if_pos rfl, List.nil_append, ihr, titlePassF_titleS]
    | keyS b =>
      have hb : '[' ∉ b := by
        have := hsg
        simp only [segOkB, Bool.and_eq_true, decide_eq_true_eq] at this
        exact this.1.1
      have hx : applyEat e (renderSegs (Seg.keyS b :: r)) = renderSegs (Seg.keyS b :: r) := by
        rw [renderSegs_keyS]
        exact applyEat_lb e _
      have ihf := ih hwfr false
      simp only [applyEat, if_neg (Bool.false_ne_true)] at ihf
      rw [hx, renderSegs_keyS,
        subTag_cons_none (mta_title_at_key true _ _),
        subTag_gap titleTagP _ rfl true true _ (renderSegs r)
          (gap_chars (show ∀ c ∈ ['K', 'E', 'Y', ' ', 'I', 'T', 'E', 'M', ':'], c ≠ '[' from by decide) hb),
        ihf, titlePassF_keyS]
      simp [renderSegs, renderSeg, keyItemTagP, List.append_assoc]
    | wisdomS b =>
      have hb : '[' ∉ b := by
        have := hsg
        simp only [segOkB, Bool.and_eq_true, decide_eq_true_eq] at this
        exact this.1
      have hx : applyEat e (renderSegs (Seg.wisdomS b :: r)) = renderSegs (Seg.wisdomS b :: r) := by
        rw [renderSegs_wisdomS]
        exact applyEat_lb e _
      have ihf := ih hwfr false
      simp only [applyEat, if_neg (Bool.false_ne_true)] at ihf
      rw [hx, renderSegs_wisdomS,
        subTag_cons_none (mta_title_at_wis true _ _),
        subTag_gap titleTagP _ rfl true true _ (renderSegs r)
          (gap_chars (show ∀ c ∈ ['W', 'I', 'S', 'D', 'O', 'M', ' ', 'G', 'E', 'M', ':'], c ≠ '[' from by decide) hb),
        ihf, titlePassF_wisdomS]
      simp [renderSegs, renderSeg, wisdomTagP, List.append_assoc]

/-- The key-item pass, segmentwise: on a well-formed segment list,
`re.sub(r'\[KEY ITEM:(.*?)\]', r'\1', ·)` replaces exactly the key-item
tags by their bodies. -/
theorem key_pass : ∀ segs : List Seg, wfSegs segs = true →
    subTag keyItemTagP false false (fun b => b) (renderSegs segs)
      = renderSegs (keyPassF segs) := by
  intro segs
  induction segs with
  | nil => intro _; rfl
  | cons sg r ih =>
    intro hwf
    obtain ⟨hsg, hwfr⟩ := wfSegs_cons hwf
    cases sg with
    | fillS f =>
      have hf : '[' ∉ f := by simpa [segOkB] using hsg
      show subTag keyItemTagP false false (fun b => b) (f ++ renderSegs r) = _
      rw [subTag_gap keyItemTagP _ rfl false false _ (renderSegs r) (no_lb_chars hf),
        ih hwfr]
      simp [renderSegs, renderSeg, keyPassF]
    | titleS b =>
      have hb : '[' ∉ b := by
        have := hsg
        simp only [segOkB, Bool.and_eq_true, decide_eq_true_eq] at this
        exact this.1
      rw [renderSegs_titleS,
        subTag_cons_none (mta_key_at_title false _ _),
        subTag_gap keyItemTagP _ rfl false false _ (renderSegs r)
          (gap_chars (show ∀ c ∈ ['T', 'I', 'T', 'L', 'E', ':'], c ≠ '[' from by decide) hb),
        ih hwfr]
      simp [renderSegs, renderSeg, keyPassF, titleTagP, List.append_assoc]
    | keyS b =>
      have hb : ']' ∉ b ∧ '\n' ∉ b := by
        have := hsg
        simp only [segOkB, Bool.and_eq_true, decide_eq_true_eq] at this
        exact ⟨this.1.2, this.2⟩
      rw [renderSegs_keyS',
        subTag_match (matchTagAt_self keyItemTagP (renderSegs r) hb.1 (Or.inr hb.2))
          (by simp [keyItemTagP]),
        if_neg (Bool.false_ne_true), ih hwfr]
      simp [renderSegs, renderSeg, keyPassF]
    | wisdomS b =>
      have hb : '[' ∉ b := by
        have := hsg
        simp only [segOkB, Bool.and_eq_true, decide_eq_true_eq] at this
        exact this.1
      rw [renderSegs_wisdomS,
        subTag_cons_none (mta_key_at_wis false _ _),
        subTag_gap keyItemTagP _ rfl false false _ (renderSegs r)
          (gap_chars (show ∀ c ∈ ['W', 'I', 'S', 'D', 'O', 'M', ' ', 'G', 'E', 'M', ':'], c ≠ '[' from by decide) hb),
        ih hwfr]
      simp [renderSegs, renderSeg, keyPassF, wisdomTagP, List.append_assoc]

/-- The wisdom pass, segmentwise: on a well-formed segment list,
`re.sub(r'\[WISDOM GEM:.*?\]', '', ·)` deletes exactly the wisdom tags. -/
theorem wisdom_pass : ∀ segs : List Seg, wfSegs segs = true →
    subTag wisdomTagP true false (fun _ => []) (renderSegs segs)
      = renderSegs (wisdomPassF segs) := by
  intro segs
  induction segs with
  | nil => intro _; rfl
  | cons sg r ih =>
    intro hwf
    obtain ⟨hsg, hwfr⟩ := wfSegs_cons hwf
    cases sg with
    | fillS f =>
      have hf : '[' ∉ f := by simpa [segOkB] using hsg
      show subTag wisdomTagP true false (fun _ => []) (f ++ renderSegs r) = _
      rw [subTag_gap wisdomTagP _ rfl true false _ (renderSegs r) (no_lb_chars hf),
        ih hwfr]
      simp [renderSegs, renderSeg, wisdomPassF]
    | titleS b =>
      have hb : '[' ∉ b := by
        have := hsg
        simp only [segOkB, Bool.and_eq_true, decide_eq_true_eq] at this
        exact this.1
      rw [renderSegs_titleS,
        subTag_cons_none (mta_wis_at_title true _ _),
        subTag_gap wisdomTagP _ rfl true false _ (renderSegs r)
          (gap_chars (show ∀ c ∈ ['T', 'I', 'T', 'L', 'E', ':'], c ≠ '[' from by decide) hb),
        ih hwfr]
      simp [renderSegs, renderSeg, wisdomPassF, titleTagP, List.append_assoc]
    | keyS b =>
      have hb : '[' ∉ b := by
        have := hsg
        simp only [segOkB, Bool.and_eq_true, decide_eq_true_eq] at this
        exact this.1.1
      rw [renderSegs_keyS,
        subTag_cons_none (mta_wis_at_key true _ _),
        subTag_gap wisdomTagP _ rfl true false _ (renderSegs r)
          (gap_chars (show ∀ c ∈ ['K', 'E', 'Y', ' ', 'I', 'T', 'E', 'M', ':'], c ≠ '[' from by decide) hb),
        ih hwfr]
      simp [renderSegs, renderSeg, wisdomPassF, keyItemTagP, List.append_assoc]
    | wisdomS b =>
      have hb : ']' ∉ b := by
        have := hsg
        simp only [segOkB, Bool.and_eq_true, decide_eq_true_eq] at this
        exact this.2
      rw [renderSegs_wisdomS',
        subTag_match (matchTagAt_self wisdomTagP (renderSegs r) hb (Or.inl rfl))
          (by simp [wisdomTagP]),
        if_neg (Bool.false_ne_true), ih hwfr]
      simp [renderSegs, wisdomPassF]

/-- The extraction of key items, segmentwise: on a well-formed segment
list, `re.findall(r'\[KEY ITEM:(.*?)\]', ·)` captures exactly the key-item
bodies, in order, duplicates included. -/
theorem key_find : ∀ segs : List Seg, wfSegs segs = true →
    findTags keyItemTagP false (renderSegs segs) = keyBodies segs := by
  intro segs
  induction segs with
  | nil => intro _; rfl
  | cons sg r ih =>
    intro hwf
    obtain ⟨hsg, hwfr⟩ := wfSegs_cons hwf
    cases sg with
    | fillS f =>
      have hf : '[' ∉ f := by simpa [segOkB] using hsg
      show findTags keyItemTagP false (f ++ renderSegs r) = _
      rw [findTags_gap keyItemTagP _ rfl false (renderSegs r) (no_lb_chars hf), ih hwfr]
      rfl
    | titleS b =>
      have hb : '[' ∉ b := by
        have := hsg
        simp only [segOkB, Bool.and_eq_true, decide_eq_true_eq] at this
        exact this.1
      rw [renderSegs_titleS,
        findTags_cons_none (mta_key_at_title false _ _),
        findTags_gap keyItemTagP _ rfl false (renderSegs r)
          (gap_chars (show ∀ c ∈ ['T', 'I', 'T', 'L', 'E', ':'], c ≠ '[' from by decide) hb),
        ih hwfr]
      rfl
    | keyS b =>
      have hb : ']' ∉ b ∧ '\n' ∉ b := by
        have := hsg
        simp only [segOkB, Bool.and_eq_true, decide_eq_true_eq] at this
        exact ⟨this.1.2, this.2⟩
      rw [renderSegs_keyS',
        findTags_match (matchTagAt_self keyItemTagP (renderSegs r) hb.1 (Or.inr hb.2))
          (by simp [keyItemTagP]),
        ih hwfr]
      rfl
    | wisdomS b =>
      have hb : '[' ∉ b := by
        have := hsg
        simp only [segOkB, Bool.and_eq_true, decide_eq_true_eq] at this
        exact this.1
      rw [renderSegs_wisdomS,
        findTags_cons_none (mta_key_at_wis false _ _),
        findTags_gap keyItemTagP _ rfl false (renderSegs r)
          (gap_chars (show ∀ c ∈ ['W', 'I', 'S', 'D', 'O', 'M', ' ', 'G', 'E', 'M', ':'], c ≠ '[' from by decide) hb),
        ih hwfr]
      rfl

theorem wf_titlePassF : ∀ segs : List Seg, wfSegs segs = true → ∀ e : Bool,
    wfSegs (titlePassF e segs) = true := by
  intro segs
  induction segs with
  | nil => intro _ e; rw [titlePassF_nil]; rfl
  | cons sg r ih =>
    intro hwf e
    obtain ⟨hok, hwfr⟩ := wfSegs_cons hwf
    cases sg with
    | fillS f =>
      have hf : '[' ∉ f := by simpa [segOkB] using hok
      cases e with
      | false =>
        show wfSegs (.fillS f :: titlePassF false r) = true
        simp only [wfSegs, List.all_cons, Bool.and_eq_true]
        exact ⟨by simp [segOkB, hf], ih hwfr false⟩
      | true =>
        by_cases hf' : f.dropWhile isPySpace = []
        · rw [show titlePassF true (.fillS f :: r) = titlePassF true r from by
            simp [titlePassF, hf']]
          exact ih hwfr true
        · rw [show titlePassF true (.fillS f :: r)
              = .fillS (f.dropWhile isPySpace) :: titlePassF false r from by
            simp [titlePassF, hf']]
          have hf2 : '[' ∉ f.dropWhile isPySpace :=
            fun hx => hf (((List.dropWhile_suffix isPySpace).sublist).mem hx)
          simp only [wfSegs, List.all_cons, Bool.and_eq_true]
          exact ⟨by simp [segOkB, hf2], ih hwfr false⟩
    | titleS b =>
      rw [titlePassF_titleS]
      exact ih hwfr true
    | keyS b =>
      rw [titlePassF_keyS]
      simp only [wfSegs, List.all_cons, Bool.and_eq_true]
      exact ⟨hok, ih hwfr false⟩
    | wisdomS b =>
      rw [titlePassF_wisdomS]
      simp only [wfSegs, List.all_cons, Bool.and_eq_true]
      exact ⟨hok, ih hwfr false⟩

theorem wf_keyPassF : ∀ segs : List Seg, wfSegs segs = true →
    wfSegs (keyPassF segs) = true := by
  intro segs
  induction segs with
  | nil => intro _; rfl
  | cons sg r ih =>
    intro hwf
    obtain ⟨hok, hwfr⟩ := wfSegs_cons hwf
    cases sg with
    | fillS f =>
      show wfSegs (.fillS f :: keyPassF r) = true
      simp only [wfSegs, List.all_cons, Bool.and_eq_true]
      exact ⟨hok, ih hwfr⟩
    | titleS b =>
      show wfSegs (.titleS b :: keyPassF r) = true
      simp only [wfSegs, List.all_cons, Bool.and_eq_true]
      exact ⟨hok, ih hwfr⟩
    | keyS b =>
      have hb : '[' ∉ b := by
        have := hok
        simp only [segOkB, Bool.and_eq_true, decide_eq_true_eq] at this
        exact this.1.1
      show wfSegs (.fillS b :: keyPassF r) = true
      simp only [wfSegs, List.all_cons, Bool.and_eq_true]
      exact ⟨by simp [segOkB, hb], ih hwfr⟩
    | wisdomS b =>
      show wfSegs (.wisdomS b :: keyPassF r) = true
      simp only [wfSegs, List.all_cons, Bool.and_eq_true]
      exact ⟨hok, ih hwfr⟩

/-- After the three passes only bracket-free filler segments remain. -/
theorem final_all_fill : ∀ segs : List Seg, wfSegs segs = true → ∀ e : Bool,
    ∀ sg ∈ wisdomPassF (keyPassF (titlePassF e segs)), ∃ f, sg = .fillS f ∧ '[' ∉ f := by
  intro segs
  induction segs with
  | nil =>
    intro _ e sg hsg
    rw [titlePassF_nil] at hsg
    simp [keyPassF, wisdomPassF] at hsg
  | cons s0 r ih =>
    intro hwf e sg hsg
    obtain ⟨hok, hwfr⟩ := wfSegs_cons hwf
    cases s0 with
    | fillS f =>
      have hf : '[' ∉ f := by simpa [segOkB] using hok
      cases e with
      | false =>
        rw [show titlePassF false (.fillS f :: r) = .fillS f :: titlePassF false r from rfl]
          at hsg
        simp only [keyPassF, wisdomPassF, List.mem_cons] at hsg
        rcases hsg with h | h
        · exact ⟨f, h, hf⟩
        · exact ih hwfr false sg h
      | true =>
        by_cases hf' : f.dropWhile isPySpace = []
        · rw [show titlePassF true (.fillS f :: r) = titlePassF true r from by
            simp [titlePassF, hf']] at hsg
          exact ih hwfr true sg hsg
        · rw [show titlePassF true (.fillS f :: r)
              = .fillS (f.dropWhile isPySpace) :: titlePassF false r from by
            simp [titlePassF, hf']] at hsg
          simp only [keyPassF, wisdomPassF, List.mem_cons] at hsg
          rcases hsg with h | h
          · exact ⟨_, h, fun hx => hf (((List.dropWhile_suffix isPySpace).sublist).mem hx)⟩
          · exact ih hwfr false sg h
    | titleS b =>
      rw [titlePassF_titleS] at hsg
      exact ih hwfr true sg hsg
    | keyS b =>
      have hb : '[' ∉ b := by
        have := hok
        simp only [segOkB, Bool.and_eq_true, decide_eq_true_eq] at this
        exact this.1.1
      rw [titlePassF_keyS] at hsg
      simp only [keyPassF, wisdomPassF, List.mem_cons] at hsg
      rcases hsg with h | h
      · exact ⟨b, h, hb⟩
      · exact ih hwfr false sg h
    | wisdomS b =>
      rw [titlePassF_wisdomS] at hsg
      simp only [keyPassF, wisdomPassF] at hsg
      exact ih hwfr false sg hsg

theorem renderSegs_no_lb : ∀ segs : List Seg,
    (∀ sg ∈ segs, ∃ f, sg = .fillS f ∧ '[' ∉ f) → '[' ∉ renderSegs segs := by
  intro segs
  induction segs with
  | nil => intro _; simp [renderSegs]
  | cons sg r ih =>
    intro h
    obtain ⟨f, hf, hnb⟩ := h sg (by simp)
    subst hf
    intro hmem
    rcases List.mem_append.mp hmem with hx | hx
    · exact hnb hx
    · exact ih (fun s hs => h s (by simp [hs])) hx

theorem mem_stripChars {c : Char} {l : List Char} (h : c ∈ stripChars l) : c ∈ l := by
  unfold stripChars at h
  rw [List.mem_reverse] at h
  have h1 := ((List.dropWhile_suffix isPySpace).sublist).mem h
  rw [List.mem_reverse] at h1
  exact ((List.dropWhile_suffix isPySpace).sublist).mem h1

/-! Projections of `parse_ai_response`, for readability of the claim
theorems. -/

theorem parse_text_eq (s : List Char) :
    (parse_ai_response s).text
      = stripChars (subTag wisdomTagP true false (fun _ => [])
          (subTag keyItemTagP false false (fun b => b)
            (subTag titleTagP true true (fun _ => []) s))) := rfl

theorem parse_key_items_eq (s : List Char) :
    (parse_ai_response s).key_items = (findTags keyItemTagP false s).map stripChars := rfl

theorem parse_title_eq (s : List Char) :
    (parse_ai_response s).title
      = match searchTag titleTagP true s with
        | some t => stripChars t
        | none => "Untitled Adventure".toList := rfl

theorem parse_wisdom_eq (s : List Char) :
    (parse_ai_response s).wisdom_gem
      = match searchTag wisdomTagP true s with
        | some w => stripChars w
        | none => [] := rfl

/-! ### Claim C1 -/

/-- C1 is false as stated.  Two concrete refutations:
on `"x [WISDOM GEM: w]"` the code's `text` is `"x"` (the final
`.strip()`), not the claim's `"x "` (tag removed, nothing else); and on
the nested input `"[KEY ITEM: [KEY ITEM: a]]"` the code's `text` is
`"[KEY ITEM: a]"` — a complete `[KEY ITEM: ...]` tag (a match of the
key-item pattern starts at its head), so bracket tag markup of the three
kinds can remain in the text field. -/
theorem claim_C1_counterexample :
    ((parse_ai_response "x [WISDOM GEM: w]".toList).text = "x".toList
      ∧ claimCleanC1 "x [WISDOM GEM: w]".toList = "x ".toList
      ∧ "x".toList ≠ "x ".toList)
    ∧ ((parse_ai_response "[KEY ITEM: [KEY ITEM: a]]".toList).text
          = "[KEY ITEM: a]".toList
      ∧ (matchTagAt keyItemTagP false
          (parse_ai_response "[KEY ITEM: [KEY ITEM: a]]".toList).text).isSome = true) := by
  decide

/-- C1 (amended): for every input whose bracket structure is well formed
— filler without `[`, interleaved with complete tags whose bodies contain
neither `[` nor `]` (and no newline inside a key-item tag) — the text
field equals the whitespace-trimmed result of removing every
`[TITLE: ...]` tag together with the whitespace that follows it,
replacing each `[KEY ITEM: ...]` tag by its inner item name, and removing
every `[WISDOM GEM: ...]` tag; and no `[` (hence no bracket tag markup of
the three kinds) remains in the text field. -/
theorem claim_C1_amended (segs : List Seg) (h : wfSegs segs = true) :
    (parse_ai_response (renderSegs segs)).text
        = stripChars (renderSegs (wisdomPassF (keyPassF (titlePassF false segs))))
      ∧ ∀ ch ∈ (parse_ai_response (renderSegs segs)).text, ch ≠ '[' := by
  have hT := title_pass segs h false
  simp only [applyEat, if_neg (Bool.false_ne_true)] at hT
  have hwfT : wfSegs (titlePassF false segs) = true := wf_titlePassF segs h false
  have hK := key_pass _ hwfT
  have htext : (parse_ai_response (renderSegs segs)).text
      = stripChars (renderSegs (wisdomPassF (keyPassF (titlePassF false segs)))) := by
    rw [parse_text_eq, hT, hK, wisdom_pass _ (wf_keyPassF _ hwfT)]
  refine ⟨htext, ?_⟩
  intro ch hch he
  subst he
  rw [htext] at hch
  exact renderSegs_no_lb _ (final_all_fill segs h false) (mem_stripChars hch)

/-- Witness for the amended C1 at a concrete well-formed input. -/
theorem claim_C1_amended_witness :
    wfSegs [Seg.fillS "Once ".toList, Seg.titleS " My Story ".toList,
        Seg.fillS "  upon a ".toList, Seg.keyS " Lamp ".toList,
        Seg.fillS " time.\n ".toList, Seg.wisdomS " Be kind. ".toList] = true
    ∧ (parse_ai_response (renderSegs [Seg.fillS "Once ".toList,
          Seg.titleS " My Story ".toList, Seg.fillS "  upon a ".toList,
          Seg.keyS " Lamp ".toList, Seg.fillS " time.\n ".toList,
          Seg.wisdomS " Be kind. ".toList])).text
        = stripChars (renderSegs (wisdomPassF (keyPassF (titlePassF false
            [Seg.fillS "Once ".toList, Seg.titleS " My Story ".toList,
              Seg.fillS "  upon a ".toList, Seg.keyS " Lamp ".toList,
              Seg.fillS " time.\n ".toList, Seg.wisdomS " Be kind. ".toList])))) :=
  ⟨by decide, (claim_C1_amended _ (by decide)).1⟩

/-! ### Claim C2 -/

/-- C2: `parse_ai_response` never raises (it is embedded as a total
function — every regex operation it performs is total on `str`), and on
an input in which none of the three tag patterns matches anywhere it
returns the fallback output: title `"Untitled Adventure"`, no key items,
empty wisdom gem, and the whitespace-trimmed original input as text. -/
theorem claim_C2 (s : List Char)
    (ht : ∀ i < s.length, matchTagAt titleTagP true (s.drop i) = none)
    (hk : ∀ i < s.length, matchTagAt keyItemTagP false (s.drop i) = none)
    (hw : ∀ i < s.length, matchTagAt wisdomTagP true (s.drop i) = none) :
    parse_ai_response s
      = { title := "Untitled Adventure".toList, text := stripChars s,
          key_items := [], wisdom_gem := [], analysis := [] } := by
  have h1 : searchTag titleTagP true s = none := searchTag_none _ _ _ ht
  have h2 : findTags keyItemTagP false s = [] := findTags_noMatch _ _ _ hk
  have h3 : searchTag wisdomTagP true s = none := searchTag_none _ _ _ hw
  have h4 : subTag titleTagP true true (fun _ => []) s = s := subTag_noMatch _ _ _ _ _ ht
  have h5 : subTag keyItemTagP false false (fun b => b) s = s := subTag_noMatch _ _ _ _ _ hk
  have h6 : subTag wisdomTagP true false (fun _ => []) s = s := subTag_noMatch _ _ _ _ _ hw
  simp [parse_ai_response, h1, h2, h3, h4, h5, h6]

/-- Witness for C2 at a concrete tag-free input. -/
theorem claim_C2_witness :
    (∀ i < ("Once upon a time.\n The end. ".toList).length,
        matchTagAt titleTagP true ("Once upon a time.\n The end. ".toList.drop i) = none)
    ∧ parse_ai_response "Once upon a time.\n The end. ".toList
        = { title := "Untitled Adventure".toList,
            text := "Once upon a time.\n The end.".toList,
            key_items := [], wisdom_gem := [], analysis := [] } :=
  ⟨by decide,
    (claim_C2 _ (by decide) (by decide) (by decide)).trans (by decide)⟩

/-! ### Claim C3 -/

/-- C3: the title is the whitespace-trimmed body of the leftmost
`[TITLE: ...]` match — the tag keyword matched case-insensitively, the
body free to span lines (`DOTALL`) — and exactly the literal
`"Untitled Adventure"` when the pattern matches nowhere. -/
theorem claim_C3 (s : List Char) :
    (∀ i body rest, matchTagAt titleTagP true (s.drop i) = some (body, rest) →
        (∀ j < i, matchTagAt titleTagP true (s.drop j) = none) →
        (parse_ai_response s).title = stripChars body)
    ∧ ((∀ i < s.length, matchTagAt titleTagP true (s.drop i) = none) →
        (parse_ai_response s).title = "Untitled Adventure".toList) := by
  constructor
  · intro i body rest hm hmin
    rw [parse_title_eq, searchTag_found titleTagP _ rfl true s i body rest hm hmin]
  · intro h
    rw [parse_title_eq, searchTag_none _ _ _ h]

/-- Witness for C3: a lowercase, multi-line title tag preceded by text,
and the fallback on a tag-free input. -/
theorem claim_C3_witness :
    (matchTagAt titleTagP true ("A [title: My\nTale ] B".toList.drop 2)
        = some (" My\nTale ".toList, " B".toList)
      ∧ (parse_ai_response "A [title: My\nTale ] B".toList).title = "My\nTale".toList)
    ∧ ((∀ i < ("plain".toList).length,
          matchTagAt titleTagP true ("plain".toList.drop i) = none)
      ∧ (parse_ai_response "plain".toList).title = "Untitled Adventure".toList) :=
  ⟨⟨by decide,
      ((claim_C3 _).1 2 " My\nTale ".toList " B".toList (by decide) (by decide)).trans
        (by decide)⟩,
    ⟨by decide, (claim_C3 _).2 (by decide)⟩⟩

/-! ### Claim C4 -/

/-- C4: on every well-formed input the `key_items` sequence is exactly
the bodies of the `[KEY ITEM: ...]` tags, in order of appearance, each
whitespace-trimmed, order and duplicates preserved. -/
theorem claim_C4 (segs : List Seg) (h : wfSegs segs = true) :
    (parse_ai_response (renderSegs segs)).key_items
      = (keyBodies segs).map stripChars := by
  rw [parse_key_items_eq, key_find segs h]

/-- Witness for C4 at a concrete input with a duplicate item. -/
theorem claim_C4_witness :
    wfSegs [Seg.fillS "a ".toList, Seg.keyS " Lamp ".toList, Seg.fillS " b".toList,
        Seg.titleS "T".toList, Seg.keyS "Lamp".toList, Seg.wisdomS " w ".toList,
        Seg.keyS " Rope ".toList] = true
    ∧ (parse_ai_response (renderSegs [Seg.fillS "a ".toList, Seg.keyS " Lamp ".toList,
          Seg.fillS " b".toList, Seg.titleS "T".toList, Seg.keyS "Lamp".toList,
          Seg.wisdomS " w ".toList, Seg.keyS " Rope ".toList])).key_items
        = ["Lamp".toList, "Lamp".toList, "Rope".toList] :=
  ⟨by decide, (claim_C4 _ (by decide)).trans (by decide)⟩

/-! ### Claim C5 -/

/-- C5 is false as stated: `"  "` is a non-empty name and age 5 lies in
1..18, yet construction fails — the code validates the *stripped* name
(`if not self.name.strip()`), so a whitespace-only name is rejected. -/
theorem claim_C5_counterexample :
    "  ".toList ≠ ([] : List Char)
    ∧ mkCharacter "  ".toList 5 "kind".toList "dogs".toList none
        = .error "Character name cannot be empty".toList := by
  constructor
  · decide
  · rfl

/-- C5 (amended): construction with a name that is empty after stripping
whitespace raises the name validation error; construction with age
outside 1..18 (in particular 0 or 19) raises a validation error; and
construction with a name containing a non-whitespace character and any
age from 1 to 18 succeeds. -/
theorem claim_C5_amended (name : List Char) (age : Int)
    (personality favorites : List Char) (st : Option (List Char)) :
    (stripChars name = [] →
        mkCharacter name age personality favorites st
          = .error "Character name cannot be empty".toList)
    ∧ ((age < 1 ∨ 18 < age) →
        ∃ e, mkCharacter name age personality favorites st = .error e)
    ∧ (stripChars name ≠ [] → 1 ≤ age → age ≤ 18 →
        mkCharacter name age personality favorites st
          = .ok ⟨name, age, personality, favorites, st⟩) := by
  refine ⟨?_, ?_, ?_⟩
  · intro h
    simp [mkCharacter, h]
  · intro h
    by_cases hn : stripChars name = []
    · exact ⟨"Character name cannot be empty".toList, by simp [mkCharacter, hn]⟩
    · exact ⟨"Character age must be between 1 and 18".toList, by simp [mkCharacter, hn, h]⟩
  · intro hn h1 h2
    have hage : ¬(age < 1 ∨ 18 < age) := by omega
    simp [mkCharacter, hn, hage]

/-- Witness for the amended C5 at the boundary ages. -/
theorem claim_C5_amended_witness :
    mkCharacter "".toList 5 "p".toList "f".toList none
        = .error "Character name cannot be empty".toList
    ∧ (∃ e, mkCharacter "Al".toList 0 "p".toList "f".toList none = .error e)
    ∧ (∃ e, mkCharacter "Al".toList 19 "p".toList "f".toList none = .error e)
    ∧ mkCharacter "Al".toList 1 "p".toList "f".toList none
        = .ok ⟨"Al".toList, 1, "p".toList, "f".toList, none⟩
    ∧ mkCharacter "Al".toList 18 "p".toList "f".toList none
        = .ok ⟨"Al".toList, 18, "p".toList, "f".toList, none⟩ :=
  ⟨(claim_C5_amended _ _ _ _ _).1 (by decide),
    (claim_C5_amended _ _ _ _ _).2.1 (Or.inl (by norm_num)),
    (claim_C5_amended _ _ _ _ _).2.1 (Or.inr (by norm_num)),
    (claim_C5_amended _ _ _ _ _).2.2 (by decide) (by norm_num) (by norm_num),
    (claim_C5_amended _ _ _ _ _).2.2 (by decide) (by norm_num) (by norm_num)⟩

/-! ### Claim C10 -/

/-- C10: a name that is non-empty but consists only of whitespace fails
validation exactly as the empty name does — with the same error — since
the check is on the stripped name. -/
theorem claim_C10 (name : List Char) (age : Int) (personality favorites : List Char)
    (st : Option (List Char)) (hne : name ≠ [])
    (hws : ∀ c ∈ name, isPySpace c = true) :
    mkCharacter name age personality favorites st
      = .error "Character name cannot be empty".toList := by
  have h : stripChars name = [] := by
    have h1 : name.dropWhile isPySpace = [] := List.dropWhile_eq_nil_iff.mpr hws
    simp [stripChars, h1]
  simp [mkCharacter, h]

/-- Witness for C10 with a space-and-tab name. -/
theorem claim_C10_witness :
    (" \t".toList ≠ ([] : List Char) ∧ ∀ c ∈ " \t".toList, isPySpace c = true)
    ∧ mkCharacter " \t".toList 9 "shy".toList "cats".toList none
        = .error "Character name cannot be empty".toList :=
  ⟨⟨by decide, by decide⟩, claim_C10 _ 9 _ _ none (by decide) (by decide)⟩

/-! ### Claim C7 -/

/-- C7 is false as stated: a profile with a character but with the
optional `tone` selection unset makes `build_story_prompt` raise
`AttributeError` on `profile.tone.value` (modelled as `none`) rather than
degrade to an empty clause. -/
theorem claim_C7_counterexample :
    ([⟨"Hero".toList, 8, "brave".toList, "adventures".toList, none⟩] : List Character) ≠ []
    ∧ build_story_prompt
        { characters := [⟨"Hero".toList, 8, "brave".toList, "adventures".toList, none⟩],
          genre := some .FANTASY, tone := none, length := some .SHORT } = none := by
  constructor
  · simp
  · rfl

/-- C7 (amended): for every profile whose genre, tone and length are all
set, `build_story_prompt` returns a prompt string without failing,
whatever the characters; a missing companion or twist only yields an
empty clause. -/
theorem claim_C7_amended (p : StoryProfile) (g : StoryGenre) (t : StoryTone)
    (l : StoryLength) (hg : p.genre = some g) (ht : p.tone = some t)
    (hl : p.length = some l) : (build_story_prompt p).isSome = true := by
  simp [build_story_prompt, hg, ht, hl]

/-- Witness for the amended C7 on a profile with no companion and no
twist. -/
theorem claim_C7_amended_witness :
    (build_story_prompt
        { characters := [⟨"Hero".toList, 8, "brave".toList, "adventures".toList, none⟩],
          genre := some .FANTASY, tone := some .GENTLE,
          length := some .SHORT }).isSome = true :=
  claim_C7_amended _ .FANTASY .GENTLE .SHORT rfl rfl rfl

/-! ### Claim C8 -/

/-- C8 is false as stated: when the external call fails, the attempt is
aborted without crashing, but the underlying cause is *not* preserved for
the caller — `generate_story` returns the cause-free `None`, identical
for two different failure causes (the cause is only logged and printed
inside the method). -/
theorem claim_C8_counterexample :
    generate_story (fun _ => .error "quota exceeded".toList)
        { characters := [⟨"Hero".toList, 8, "brave".toList, "adventures".toList, none⟩],
          genre := some .FANTASY, tone := some .GENTLE, length := some .SHORT }
      = none
    ∧ generate_story (fun _ => .error "network unreachable".toList)
        { characters := [⟨"Hero".toList, 8, "brave".toList, "adventures".toList, none⟩],
          genre := some .FANTASY, tone := some .GENTLE, length := some .SHORT }
      = none := by
  constructor <;> rfl

/-- C8 (amended): a failing generation call aborts the current attempt —
`generate_story` catches the exception and returns `None` to its caller
instead of crashing; the underlying cause is logged and printed but not
returned. -/
theorem claim_C8_amended (gen : List Char → Except (List Char) (List Char))
    (p : StoryProfile) (prompt e : List Char)
    (hb : build_story_prompt p = some prompt) (hg : gen prompt = .error e) :
    generate_story gen p = none := by
  simp [generate_story, hb, hg]

/-- Witness for the amended C8. -/
theorem claim_C8_amended_witness :
    generate_story (fun _ => .error "boom".toList)
        { characters := [⟨"Hero".toList, 8, "brave".toList, "adventures".toList, none⟩],
          genre := some .FANTASY, tone := some .GENTLE, length := some .SHORT }
      = none :=
  claim_C8_amended _ _ _ "boom".toList rfl rfl

/-! ### Claim C6 -/

/-- Stable unfolding of `save_story_and_characters`. -/
theorem save_story_and_characters_eq (saved pcs : List Character) :
    save_story_and_characters saved pcs
      = if (pcs.filter fun x => !decide (x.name ∈ saved.map Character.name)).isEmpty
        then (saved, none)
        else (saved ++ pcs.filter fun x => !decide (x.name ∈ saved.map Character.name),
          some (takeLast 20
            (saved ++ pcs.filter fun x => !decide (x.name ∈ saved.map Character.name)))) := rfl

/-- C6: for the character store updated by `save_story_and_characters`
and persisted by `save_characters`: (a) when a character name is already
present in the store, saving adds no entry with that name — the in-memory
count for that name is unchanged and the persisted count cannot exceed
it; (b) saving a 21st distinct character persists exactly the last 20
entries — the oldest entry is evicted and the new character is last. -/
theorem claim_C6 (saved pcs : List Character) (n : List Char) (c : Character) :
    (n ∈ saved.map Character.name →
        countName n (save_story_and_characters saved pcs).1 = countName n saved
        ∧ ∀ per, (save_story_and_characters saved pcs).2 = some per →
            countName n per ≤ countName n saved)
    ∧ (saved.length = 20 → c.name ∉ saved.map Character.name →
        (save_story_and_characters saved [c]).2 = some (saved.drop 1 ++ [c])
        ∧ (saved.drop 1 ++ [c]).length = 20) := by
  constructor
  · intro hn
    have hzero :
        countName n (pcs.filter fun x => !decide (x.name ∈ saved.map Character.name))
          = 0 := by
      rw [countName, List.countP_eq_zero]
      intro a ha
      have hnot := (List.mem_filter.mp ha).2
      simp only [Bool.not_eq_true', decide_eq_false_iff_not] at hnot
      simp only [decide_eq_true_eq]
      intro heq
      exact hnot (heq ▸ hn)
    have hzero' := hzero
    rw [countName] at hzero'
    by_cases he :
        (pcs.filter fun x => !decide (x.name ∈ saved.map Character.name)) = []
    · rw [save_story_and_characters_eq, if_pos (List.isEmpty_iff.mpr he)]
      exact ⟨rfl, fun per hper => Option.noConfusion hper⟩
    · rw [save_story_and_characters_eq,
        if_neg (fun hh => he (List.isEmpty_iff.mp hh))]
      constructor
      · show countName n (saved ++ _) = countName n saved
        simp only [countName, List.countP_append, hzero', Nat.add_zero]
      · intro per hper
        simp only [Option.some.injEq] at hper
        subst hper
        have h1 : countName n (takeLast 20
              (saved ++ pcs.filter fun x => !decide (x.name ∈ saved.map Character.name)))
            ≤ countName n
              (saved ++ pcs.filter fun x => !decide (x.name ∈ saved.map Character.name)) := by
          rw [countName, countName, takeLast]
          exact (List.drop_sublist _ _).countP_le _
        refine le_trans h1 (le_of_eq ?_)
        simp only [countName, List.countP_append, hzero', Nat.add_zero]
  · intro hlen hnotin
    have hfil : ([c].filter fun x => !decide (x.name ∈ saved.map Character.name))
        = [c] := by
      rw [List.filter_cons]
      rw [if_pos]
      · rfl
      · simp [hnotin]
    have htake : takeLast 20 (saved ++ [c]) = saved.drop 1 ++ [c] := by
      have h21 : (saved ++ [c]).length = 21 := by simp [hlen]
      rw [takeLast, h21]
      have h1 : (21 : Nat) - 20 = 1 := by norm_num
      rw [h1]
      exact List.drop_append_of_le_length (by omega)
    rw [save_story_and_characters_eq, hfil]
    rw [if_neg (by simp)]
    refine ⟨by rw [htake], ?_⟩
    simp [hlen]

/-- Witness for C6: a 20-entry store with single-letter names; re-saving
the first name adds nothing, a 21st distinct name evicts the oldest. -/
theorem claim_C6_witness :
    (("A".toList ∈ ((List.range 20).map fun i =>
          Character.mk [Char.ofNat (65 + i)] 8 [] [] none).map Character.name)
      ∧ countName "A".toList
          (save_story_and_characters
            ((List.range 20).map fun i => Character.mk [Char.ofNat (65 + i)] 8 [] [] none)
            [Character.mk "A".toList 9 [] [] none]).1
        = countName "A".toList
            ((List.range 20).map fun i => Character.mk [Char.ofNat (65 + i)] 8 [] [] none))
    ∧ (save_story_and_characters
          ((List.range 20).map fun i => Character.mk [Char.ofNat (65 + i)] 8 [] [] none)
          [Character.mk "Z9".toList 7 [] [] none]).2
        = some ((((List.range 20).map fun i =>
            Character.mk [Char.ofNat (65 + i)] 8 [] [] none).drop 1)
            ++ [Character.mk "Z9".toList 7 [] [] none]) :=
  ⟨⟨by decide,
      ((claim_C6 _ [Character.mk "A".toList 9 [] [] none] "A".toList
        (Character.mk "Z9".toList 7 [] [] none)).1 (by decide)).1⟩,
    ((claim_C6 _ [] "A".toList (Character.mk "Z9".toList 7 [] [] none)).2
      (by decide) (by decide)).1⟩

/-! ### Claim C9 -/

/-- C9: the happy path of the `/generate_story` route is unreachable —
the route's `Character(name=..., age=..., gender=..., ...)` call passes a
`gender` keyword that the `Character` dataclass does not declare, so
Python raises `TypeError` on every request and the route always answers
HTTP 500; the `{title, text, wisdom_gem, key_items}` JSON body the spec
describes is never produced.  Evaluated at a concrete request, for every
generation backend. -/
theorem claim_C9 (gen : List Char → Except (List Char) (List Char)) :
    api_generate_story gen
        { character_name := "Ava".toList, character_age := 8,
          character_gender := "girl".toList }
      = .httpError 500
          ("An unexpected error occurred: __init__() got an unexpected keyword argument 'gender'".toList) := by
  rfl
